import Mathlib

/-!
Shallow embedding of the connect-app command processor (src/main.go).

Go maps are modelled as association lists together with the operations
`lookupK` (map read), `upsert` (map assignment) and `eraseK` (delete);
only `lookupK` is observable, and the list order stands for Go's
unspecified map iteration order where the code ranges over a map.
File-backed persistence is modelled by a `Store` carrying the three
collections, with explicit failure-injection flags for each read/write
and for each outbound Slack API call.  Timestamps are abstract `Nat`s.
-/

namespace ConnectApp

/-- Map read: Go `v, ok := m[k]`.  First matching key wins. -/
def lookupK {α : Type} (k : String) : List (String × α) → Option α
  | [] => none
  | (k', v) :: rest => if k' = k then some v else lookupK k rest

/-- Map assignment: Go `m[k] = v`.  Replaces the first binding of `k`
in place, or appends a new binding. -/
def upsert {α : Type} (k : String) (v : α) : List (String × α) → List (String × α)
  | [] => [(k, v)]
  | (k', v') :: rest => if k' = k then (k, v) :: rest else (k', v') :: upsert k v rest

/-- Map deletion: Go `delete(m, k)`. -/
def eraseK {α : Type} (k : String) : List (String × α) → List (String × α)
  | [] => []
  | (k', v) :: rest => if k' = k then eraseK k rest else (k', v) :: eraseK k rest

/-- Go `strings.Join(l, sep)`. -/
def joinSep (sep : String) : List String → String
  | [] => ""
  | [x] => x
  | x :: y :: rest => x ++ sep ++ joinSep sep (y :: rest)

/-- `Member` struct of main.go: team-scoped member record. -/
structure Member where
  memberID : String
  name : String
  channels : List (String × String)
  deriving DecidableEq, Repr

/-- `Team` struct of main.go. -/
structure Team where
  members : List Member
  deriving DecidableEq, Repr

/-- `User` struct of main.go: global user registry entry. -/
structure User where
  memberID : String
  name : String
  updatedAt : Nat
  channels : List (String × String)
  deriving DecidableEq, Repr

/-- `Channel` struct of main.go. -/
structure Channel where
  id : String
  name : String
  deriving DecidableEq, Repr

/-- The `teams` map inside the `Teams` struct (teams.json). -/
abbrev TeamsT : Type := List (String × Team)

/-- The `Users` map (users.json). -/
abbrev UsersT : Type := List (String × User)

/-- The `Channels` map (channels.json). -/
abbrev ChannelsT : Type := List (String × Channel)

/-- The three persisted collections together. -/
structure Store where
  teams : TeamsT
  users : UsersT
  channels : ChannelsT
  deriving DecidableEq, Repr

/-- A text response sent back to Slack; `isError` records whether it was
produced by `responseError` (business-rule failure) or `responseSuccess`. -/
structure Resp where
  isError : Bool
  text : String
  deriving DecidableEq, Repr

/-- main.go `responseSuccess`. -/
def responseSuccess (text : String) : Resp := ⟨false, text⟩

/-- main.go `responseError`. -/
def responseError (text : String) : Resp := ⟨true, text⟩

/-- The part of `slack.User` that main.go reads: `Name`,
`Profile.DisplayName` and `IsBot`. -/
structure UserInfo where
  name : String
  displayName : String
  isBot : Bool
  deriving DecidableEq, Repr

/-- Display-name resolution used by `handleAdd` and
`updateUserInfoForChannel`: the profile display name, falling back to
the primary name when it is empty. -/
def resolveName (info : UserInfo) : String :=
  if info.displayName = "" then info.name else info.displayName

/-- Failure-injection environment for `handleCreateTeam` / `handleRemoveTeam`:
whether `readTeams` and `writeTeams` succeed. -/
structure TeamEnv where
  readTeamsOk : Bool
  writeTeamsOk : Bool
  deriving DecidableEq, Repr

/-- main.go `handleCreateTeam`, with the team-name argument supplied.
Returns the response and the resulting persisted store (unchanged on
any failure path; a failed write persists nothing). -/
def handleCreateTeam (env : TeamEnv) (st : Store) (team : String) : Resp × Store :=
  if ¬ env.readTeamsOk then (responseError "Error reading teams.", st)
  else
    match lookupK team st.teams with
    | some _ => (responseError ("Team '" ++ team ++ "' already exists."), st)
    | none =>
      let teams' := upsert team { members := [] } st.teams
      if ¬ env.writeTeamsOk then (responseError "Error writing to teams.", st)
      else (responseSuccess ("Team '" ++ team ++ "' has been created."), { st with teams := teams' })

/-- main.go `handleRemoveTeam`, with the team-name argument supplied. -/
def handleRemoveTeam (env : TeamEnv) (st : Store) (team : String) : Resp × Store :=
  if ¬ env.readTeamsOk then (responseError "Error reading teams.", st)
  else
    match lookupK team st.teams with
    | none => (responseError ("Team '" ++ team ++ "' does not exist."), st)
    | some _ =>
      let teams' := eraseK team st.teams
      if ¬ env.writeTeamsOk then (responseError "Error writing to teams.", st)
      else (responseSuccess ("Team '" ++ team ++ "' has been removed."), { st with teams := teams' })

/-- Failure-injection environment for `handleAdd`: store read/write
outcomes, the result of `api.GetUserInfo` (error text on failure), and
the current time used for the new `User.updatedAt`. -/
structure AddEnv where
  readTeamsOk : Bool
  userInfo : Except String UserInfo
  writeTeamsOk : Bool
  readUsersOk : Bool
  writeUsersOk : Bool
  now : Nat

/-- main.go `handleAdd`, with both arguments supplied.  Checks the team
exists and the member is not already present, fetches the profile,
appends the new `Member`, writes teams, then best-effort upserts the
`User` registry entry (read/write failures there are only logged). -/
def handleAdd (env : AddEnv) (st : Store) (team memberID : String) : Resp × Store :=
  if ¬ env.readTeamsOk then (responseError "Error reading teams.", st)
  else
    match lookupK team st.teams with
    | none => (responseError ("Team '" ++ team ++ "' does not exist."), st)
    | some t =>
      if t.members.any (fun m => m.memberID = memberID) then
        (responseError ("User " ++ memberID ++ " is already in team '" ++ team ++ "'."), st)
      else
        match env.userInfo with
        | .error e => (responseError ("Error getting user info: " ++ e), st)
        | .ok info =>
          let displayName := resolveName info
          let newMember : Member := { memberID := memberID, name := displayName, channels := [] }
          let teams' := upsert team { members := t.members ++ [newMember] } st.teams
          if ¬ env.writeTeamsOk then (responseError "Error writing to teams.", st)
          else
            let st1 : Store := { st with teams := teams' }
            let st2 : Store :=
              if ¬ env.readUsersOk then st1
              else
                let users' := upsert memberID
                  { memberID := memberID, name := displayName,
                    updatedAt := env.now, channels := [] } st1.users
                if ¬ env.writeUsersOk then st1 else { st1 with users := users' }
            (responseSuccess ("Added user " ++ displayName ++ " (" ++ memberID ++ ") to team '" ++ team ++ "'."), st2)

/-- The member-removal loop of main.go `handleRemove`: delete the first
member whose `member_id` matches, `none` when no member matches. -/
def removeFirst (memberID : String) : List Member → Option (List Member)
  | [] => none
  | m :: rest =>
    if m.memberID = memberID then some rest
    else (removeFirst memberID rest).map (m :: ·)

/-- main.go `handleRemove`, with both arguments supplied. -/
def handleRemove (env : TeamEnv) (st : Store) (team memberID : String) : Resp × Store :=
  if ¬ env.readTeamsOk then (responseError "Error reading teams.", st)
  else
    match lookupK team st.teams with
    | none => (responseError ("Team '" ++ team ++ "' does not exist."), st)
    | some t =>
      match removeFirst memberID t.members with
      | none => (responseError ("User " ++ memberID ++ " is not in team '" ++ team ++ "'."), st)
      | some members' =>
        let teams' := upsert team { members := members' } st.teams
        if ¬ env.writeTeamsOk then (responseError "Error writing to teams.", st)
        else (responseSuccess ("Removed user " ++ memberID ++ " from team '" ++ team ++ "'."), { st with teams := teams' })

/-- The per-member formatting of main.go `printMembers`:
`"name (id)"`, or the bare id when the name is empty. -/
def memberEntry (m : Member) : String :=
  if ¬ (m.name = "") then m.name ++ " (" ++ m.memberID ++ ")" else m.memberID

/-- main.go `printMembers` (the `print members <team>` query). -/
def printMembers (readTeamsOk : Bool) (st : Store) (team : String) : Resp :=
  if ¬ readTeamsOk then responseError "Error reading teams."
  else
    match lookupK team st.teams with
    | none => responseError ("Team '" ++ team ++ "' does not exist.")
    | some t =>
      let members := t.members.map memberEntry
      if members.length = 0 then
        responseSuccess ("No members found in team '" ++ team ++ "'.")
      else
        responseSuccess ("Members of team '" ++ team ++ "': " ++ joinSep ", " members)

/-- The channel-resolution loop shared by main.go `handlePing` and
`handleRemoveChannel`: scan the `Channels` collection in iteration
order, returning the key of the first channel whose `name` equals the
argument, and the zero value `""` when none matches. -/
def resolveChannel (channelName : String) : ChannelsT → String
  | [] => ""
  | (id, c) :: rest => if c.name = channelName then id else resolveChannel channelName rest

/-- Failure-injection environment for `handlePing`. -/
structure PingEnv where
  readTeamsOk : Bool
  readChannelsOk : Bool
  postMessage : Except String Unit
  deriving Repr

/-- main.go `handlePing`, with both arguments supplied.  Returns the
response and the list of outbound `PostMessage` calls attempted
(channel id and message text). -/
def handlePing (env : PingEnv) (st : Store) (team channelName : String) : Resp × List (String × String) :=
  if ¬ env.readTeamsOk then (responseError "Error reading teams.", [])
  else
    match lookupK team st.teams with
    | none => (responseError ("Team '" ++ team ++ "' does not exist."), [])
    | some t =>
      if ¬ env.readChannelsOk then (responseError "Error reading channels.", [])
      else
        let channelID := resolveChannel channelName st.channels
        if channelID = "" then (responseError ("Channel '" ++ channelName ++ "' not found."), [])
        else
          let mentions := (t.members.filter (fun m => ¬ (m.memberID = ""))).map
            (fun m => "<@" ++ m.memberID ++ ">")
          if mentions.length = 0 then
            (responseError ("No members of team '" ++ team ++ "' found."), [])
          else
            let send := (channelID, joinSep " " mentions)
            match env.postMessage with
            | .error e => (responseError ("Error pinging team: " ++ e), [send])
            | .ok _ =>
              (responseSuccess ("Successfully pinged team '" ++ team ++ "' in #" ++ channelName ++ "."), [send])

/-- Failure-injection environment for `handleAddChannel`. -/
structure AddChannelEnv where
  readChannelsOk : Bool
  joinConversation : Except String Unit
  writeChannelsOk : Bool
  deriving Repr

/-- Result of `handleAddChannel`: response, resulting store, whether
`api.JoinConversation` was called, and whether the detached per-channel
reconciliation pass was spawned. -/
structure AddChannelOut where
  resp : Resp
  store : Store
  joinCalled : Bool
  reconcileSpawned : Bool

/-- The generic guidance message `handleAddChannel` reuses for several
failure cases. -/
def runInsideMsg : String :=
  "You need to run the command inside the channel you want to add. If you are trying to add a private channel please run /invite @connect-management."

/-- main.go `handleAddChannel`, taking the request-context channel id
and name. -/
def handleAddChannel (env : AddChannelEnv) (st : Store) (channelID channelName : String) : AddChannelOut :=
  if channelID = "" ∨ channelName = "" then ⟨responseError runInsideMsg, st, false, false⟩
  else if ¬ env.readChannelsOk then ⟨responseError runInsideMsg, st, false, false⟩
  else
    match lookupK channelID st.channels with
    | some _ => ⟨responseError ("Channel #" ++ channelName ++ " is already being tracked."), st, false, false⟩
    | none =>
      match env.joinConversation with
      | .error _ => ⟨responseError runInsideMsg, st, true, false⟩
      | .ok _ =>
        let channels' := upsert channelID { id := channelID, name := channelName } st.channels
        if ¬ env.writeChannelsOk then ⟨responseError "Error writing to channels file.", st, true, false⟩
        else
          ⟨responseSuccess ("Channel #" ++ channelName ++ " has been added to the tracking list."),
           { st with channels := channels' }, true, true⟩

/-- Failure-injection environment for `handleRemoveChannel`. -/
structure ChannelEnv where
  readChannelsOk : Bool
  writeChannelsOk : Bool
  deriving DecidableEq, Repr

/-- main.go `handleRemoveChannel`, with the channel-name argument
supplied. -/
def handleRemoveChannel (env : ChannelEnv) (st : Store) (channelName : String) : Resp × Store :=
  if ¬ env.readChannelsOk then (responseError "Error reading channels.", st)
  else
    let channelID := resolveChannel channelName st.channels
    if channelID = "" then (responseError ("Channel #" ++ channelName ++ " is not being tracked."), st)
    else
      let channels' := eraseK channelID st.channels
      if ¬ env.writeChannelsOk then (responseError "Error writing to channels file.", st)
      else (responseSuccess ("Channel #" ++ channelName ++ " has been removed from the tracking list."), { st with channels := channels' })

/-- Failure-injection environment for `updateUserInfoForChannel`:
store read/write outcomes, the result of `api.GetUsersInConversation`
(the channel member-id list, or an error), the per-member result of
`api.GetUserInfo`, and the current time. -/
structure ReconEnv where
  readUsersOk : Bool
  readTeamsOk : Bool
  channelMembers : Except String (List String)
  userInfo : String → Except String UserInfo
  writeUsersOk : Bool
  writeTeamsOk : Bool
  now : Nat

/-- The Users upsert of the per-member loop of main.go
`updateUserInfoForChannel`: create the entry if absent (empty channels
mapping) or refresh `name` in place, set `updatedAt` to now, and add
this channel to the membership mapping. -/
def refreshUser (memberID displayName channelID : String) (now : Nat) (users : UsersT) : UsersT :=
  let user : User :=
    match lookupK memberID users with
    | none => { memberID := memberID, name := displayName, updatedAt := 0, channels := [] }
    | some u => { u with name := displayName }
  upsert memberID { user with updatedAt := now, channels := upsert channelID memberID user.channels } users

/-- The team-member refresh of the per-member loop: a `Member` whose
`member_id` matches gets the new name and this channel added, any other
member is untouched. -/
def refreshMember (memberID displayName channelID : String) (m : Member) : Member :=
  if m.memberID = memberID then
    { m with name := displayName, channels := upsert channelID memberID m.channels }
  else m

/-- The teams update of the per-member loop: every member of every team
is run through `refreshMember`. -/
def updateTeamsMember (memberID displayName channelID : String) (teams : TeamsT) : TeamsT :=
  teams.map (fun p => (p.1, { members := p.2.members.map (refreshMember memberID displayName channelID) }))

/-- The body of the per-member loop of main.go
`updateUserInfoForChannel`: skip on profile-fetch failure or bot,
otherwise upsert the `User` entry and refresh every matching team
`Member` in every team. -/
def processMember (channelID : String) (profiles : String → Except String UserInfo) (now : Nat)
    (acc : UsersT × TeamsT) (memberID : String) : UsersT × TeamsT :=
  match profiles memberID with
  | .error _ => acc
  | .ok info =>
    if info.isBot then acc
    else
      (refreshUser memberID (resolveName info) channelID now acc.1,
       updateTeamsMember memberID (resolveName info) channelID acc.2)

/-- The whole per-member loop of `updateUserInfoForChannel`, folded
over the channel member list. -/
def reconCore (channelID : String) (profiles : String → Except String UserInfo) (now : Nat)
    (members : List String) (users : UsersT) (teams : TeamsT) : UsersT × TeamsT :=
  members.foldl (processMember channelID profiles now) (users, teams)

/-- main.go `updateUserInfoForChannel`: the single-channel
reconciliation pass.  Any read failure or member-list fetch failure
aborts with no writes; at the end Users and Teams are saved once each,
independently (a failed save leaves that collection unchanged). -/
def updateUserInfoForChannel (env : ReconEnv) (channelID : String) (st : Store) : Store :=
  if ¬ env.readUsersOk then st
  else if ¬ env.readTeamsOk then st
  else
    match env.channelMembers with
    | .error _ => st
    | .ok members =>
      let res := reconCore channelID env.userInfo env.now members st.users st.teams
      { st with
        users := if env.writeUsersOk then res.1 else st.users,
        teams := if env.writeTeamsOk then res.2 else st.teams }

/-- The state of one backing JSON file as seen by `ioutil.ReadFile`:
absent (`os.IsNotExist`), unreadable for another reason, or present
with raw contents `β`. -/
inductive FileState (β : Type) where
  | absent
  | unreadable
  | present (data : β)

/-- main.go `readTeams`, over an abstract file state and an abstract
`json.Unmarshal` for the teams document: an absent file yields the
empty map without error, any other read error or a parse error is
returned to the caller. -/
def readTeams {β : Type} (file : FileState β) (unmarshal : β → Except Unit TeamsT) : Except Unit TeamsT :=
  match file with
  | .absent => .ok []
  | .unreadable => .error ()
  | .present data => unmarshal data

/-- main.go `readUsers`, over an abstract file state. -/
def readUsers {β : Type} (file : FileState β) (unmarshal : β → Except Unit UsersT) : Except Unit UsersT :=
  match file with
  | .absent => .ok []
  | .unreadable => .error ()
  | .present data => unmarshal data

/-- main.go `readChannels`, over an abstract file state. -/
def readChannels {β : Type} (file : FileState β) (unmarshal : β → Except Unit ChannelsT) : Except Unit ChannelsT :=
  match file with
  | .absent => .ok []
  | .unreadable => .error ()
  | .present data => unmarshal data

/-- The store-mutating operations of claim C8: the four team commands
and the reconciliation pass, each with its failure-injection
environment and arguments. -/
inductive Op where
  | createTeam (env : TeamEnv) (team : String)
  | removeTeam (env : TeamEnv) (team : String)
  | addMember (env : AddEnv) (team memberID : String)
  | removeMember (env : TeamEnv) (team memberID : String)
  | reconcile (env : ReconEnv) (channelID : String)

/-- The resulting persisted store of each operation of `Op`. -/
def applyOp : Op → Store → Store
  | .createTeam env team, st => (handleCreateTeam env st team).2
  | .removeTeam env team, st => (handleRemoveTeam env st team).2
  | .addMember env team memberID, st => (handleAdd env st team memberID).2
  | .removeMember env team memberID, st => (handleRemove env st team memberID).2
  | .reconcile env channelID, st => updateUserInfoForChannel env channelID st

/-- A `User` with its `updatedAt` timestamp zeroed: the part of a user
entry compared when timestamps are set aside. -/
def eraseTime (u : User) : User := { u with updatedAt := 0 }

/-- A `Users` collection with every timestamp zeroed. -/
def eraseTimes (us : UsersT) : UsersT := us.map (fun p => (p.1, eraseTime p.2))

theorem lookupK_upsert {α : Type} (k k' : String) (v : α) (l : List (String × α)) :
    lookupK k' (upsert k v l) = if k = k' then some v else lookupK k' l := by
  induction l with
  | nil => simp [lookupK, upsert]
  | cons p rest ih =>
    obtain ⟨pk, pv⟩ := p
    by_cases hpk : pk = k
    · subst hpk
      simp only [upsert, if_pos rfl, lookupK]
      by_cases h : pk = k' <;> simp [h]
    · simp only [upsert, if_neg hpk, lookupK]
      by_cases hpk' : pk = k'
      · subst hpk'
        have : ¬ k = pk := fun h => hpk h.symm
        simp [lookupK, this]
      · simp [lookupK, hpk', ih]

theorem lookupK_mem {α : Type} {k : String} {v : α} {l : List (String × α)}
    (h : lookupK k l = some v) : (k, v) ∈ l := by
  induction l with
  | nil => simp [lookupK] at h
  | cons p rest ih =>
    obtain ⟨pk, pv⟩ := p
    by_cases hpk : pk = k
    · subst hpk
      simp [lookupK] at h
      simp [h]
    · simp [lookupK, hpk] at h
      exact List.mem_cons_of_mem _ (ih h)

theorem upsert_lookup_self {α : Type} {k : String} {v : α} {l : List (String × α)}
    (h : lookupK k l = some v) : upsert k v l = l := by
  induction l with
  | nil => simp [lookupK] at h
  | cons p rest ih =>
    obtain ⟨pk, pv⟩ := p
    by_cases hpk : pk = k
    · subst hpk
      simp [lookupK] at h
      simp [upsert, h]
    · simp [lookupK, hpk] at h
      simp [upsert, hpk, ih h]

theorem upsert_upsert {α : Type} (k : String) (v v' : α) (l : List (String × α)) :
    upsert k v (upsert k v' l) = upsert k v l := by
  induction l with
  | nil => simp [upsert]
  | cons p rest ih =>
    obtain ⟨pk, pv⟩ := p
    by_cases hpk : pk = k
    · subst hpk
      simp [upsert]
    · simp [upsert, hpk, ih]

theorem mem_upsert {α : Type} {p : String × α} {k : String} {v : α} {l : List (String × α)}
    (h : p ∈ upsert k v l) : p = (k, v) ∨ p ∈ l := by
  induction l with
  | nil => simp [upsert] at h; simp [h]
  | cons q rest ih =>
    obtain ⟨qk, qv⟩ := q
    by_cases hqk : qk = k
    · subst hqk
      simp [upsert] at h
      rcases h with h | h
      · exact Or.inl (by simp [h])
      · exact Or.inr (List.mem_cons_of_mem _ h)
    · simp only [upsert, if_neg hqk, List.mem_cons] at h
      rcases h with h | h
      · exact Or.inr (by simp [h])
      · rcases ih h with h' | h'
        · exact Or.inl h'
        · exact Or.inr (List.mem_cons_of_mem _ h')

theorem mem_eraseK {α : Type} {p : String × α} {k : String} {l : List (String × α)}
    (h : p ∈ eraseK k l) : p ∈ l := by
  induction l with
  | nil => simp [eraseK] at h
  | cons q rest ih =>
    obtain ⟨qk, qv⟩ := q
    by_cases hqk : qk = k
    · subst hqk
      simp only [eraseK, if_pos rfl] at h
      exact List.mem_cons_of_mem _ (ih h)
    · simp only [eraseK, if_neg hqk, List.mem_cons] at h
      rcases h with h | h
      · simp [h]
      · exact List.mem_cons_of_mem _ (ih h)

theorem lookupK_map_val {α β : Type} (k : String) (f : α → β) (l : List (String × α)) :
    lookupK k (l.map (fun p => (p.1, f p.2))) = (lookupK k l).map f := by
  induction l with
  | nil => simp [lookupK]
  | cons p rest ih =>
    obtain ⟨pk, pv⟩ := p
    by_cases hpk : pk = k
    · subst hpk
      simp [lookupK]
    · simp [lookupK, hpk, ih]

theorem upsert_map_val {α β : Type} (k : String) (v : α) (f : α → β) (l : List (String × α)) :
    (upsert k v l).map (fun p => (p.1, f p.2)) = upsert k (f v) (l.map (fun p => (p.1, f p.2))) := by
  induction l with
  | nil => simp [upsert]
  | cons p rest ih =>
    obtain ⟨pk, pv⟩ := p
    by_cases hpk : pk = k
    · subst hpk
      simp [upsert]
    · simp [upsert, hpk, ih]

theorem removeFirst_sublist {memberID : String} {l l' : List Member}
    (h : removeFirst memberID l = some l') : l'.Sublist l := by
  induction l generalizing l' with
  | nil => simp [removeFirst] at h
  | cons m rest ih =>
    by_cases hm : m.memberID = memberID
    · simp only [removeFirst, if_pos hm, Option.some.injEq] at h
      subst h
      exact List.sublist_cons_self _ _
    · simp only [removeFirst, if_neg hm] at h
      cases hrf : removeFirst memberID rest with
      | none => rw [hrf] at h; simp at h
      | some l'' =>
        rw [hrf] at h
        simp only [Option.map_some', Option.some.injEq] at h
        subst h
        exact (ih hrf).cons₂ m

theorem removeFirst_append_not_mem {memberID : String} {l : List Member} {nm : Member}
    (h : ∀ m ∈ l, ¬ (m.memberID = memberID)) (hnm : nm.memberID = memberID) :
    removeFirst memberID (l ++ [nm]) = some l := by
  induction l with
  | nil => simp [removeFirst, hnm]
  | cons m rest ih =>
    have hm : ¬ (m.memberID = memberID) := h m (by simp)
    have ih' := ih (fun x hx => h x (List.mem_cons_of_mem _ hx))
    simp only [List.cons_append, removeFirst, if_neg hm, List.append_eq, ih', Option.map_some']

/-- C5: for every team T existing in the store and every tracked channel C,
ping(T, C) when T has zero members returns an error text response and makes
no outbound message-send call to the platform. -/
theorem ping_empty_team (env : PingEnv) (st : Store) (team cid : String) (ch : Channel) (t : Team)
    (hteam : lookupK team st.teams = some t) (hmem : t.members = [])
    (htracked : (cid, ch) ∈ st.channels) :
    (handlePing env st team ch.name).1.isError = true ∧
    (handlePing env st team ch.name).2 = [] := by
  unfold handlePing
  by_cases h1 : env.readTeamsOk
  · simp only [h1, not_true_eq_false, if_false, hteam]
    by_cases h2 : env.readChannelsOk
    · simp only [h2, not_true_eq_false, if_false]
      by_cases h3 : resolveChannel ch.name st.channels = ""
      · simp [h3, responseError]
      · simp [h3, hmem, responseError]
    · simp [h2, responseError]
  · simp [h1, responseError]

/-- C6: for every channel id already present in the Channels collection
(readable, with the request context carrying the non-empty id and name),
add-channel returns the "already being tracked" error, does not call the
platform join-channel capability, and leaves the persisted Channels
collection unchanged. -/
theorem addChannel_already_tracked (env : AddChannelEnv) (st : Store)
    (channelID channelName : String) (c : Channel)
    (hid : ¬ (channelID = "")) (hname : ¬ (channelName = ""))
    (hread : env.readChannelsOk = true)
    (htracked : lookupK channelID st.channels = some c) :
    (handleAddChannel env st channelID channelName).resp =
      responseError ("Channel #" ++ channelName ++ " is already being tracked.") ∧
    (handleAddChannel env st channelID channelName).joinCalled = false ∧
    (handleAddChannel env st channelID channelName).store = st := by
  unfold handleAddChannel
  simp [hid, hname, hread, htracked]

/-- C7: for each of the three collections, load returns an empty initialized
value of the correct shape without error when the backing file is absent, and
fails exactly when the file exists but cannot be parsed or another read error
occurs. -/
theorem load_contract (β : Type) (file : FileState β)
    (ut : β → Except Unit TeamsT) (uu : β → Except Unit UsersT) (uc : β → Except Unit ChannelsT) :
    (file = .absent →
      readTeams file ut = .ok [] ∧ readUsers file uu = .ok [] ∧ readChannels file uc = .ok []) ∧
    (∀ e, readTeams file ut = .error e ↔
      (file = .unreadable ∨ ∃ d, file = .present d ∧ ut d = .error e)) ∧
    (∀ e, readUsers file uu = .error e ↔
      (file = .unreadable ∨ ∃ d, file = .present d ∧ uu d = .error e)) ∧
    (∀ e, readChannels file uc = .error e ↔
      (file = .unreadable ∨ ∃ d, file = .present d ∧ uc d = .error e)) := by
  cases file with
  | absent => simp [readTeams, readUsers, readChannels]
  | unreadable => simp [readTeams, readUsers, readChannels]
  | present d =>
    refine ⟨by simp, ?_, ?_, ?_⟩ <;> intro e <;> simp [readTeams, readUsers, readChannels]

/-- Witness for `load_contract`: the absent-file case at a concrete parser. -/
theorem load_contract_witness :
    readTeams (FileState.absent : FileState Unit) (fun _ => .error ()) = .ok [] ∧
    readUsers (FileState.absent : FileState Unit) (fun _ => .error ()) = .ok [] ∧
    readChannels (FileState.absent : FileState Unit) (fun _ => .error ()) = .ok [] :=
  (load_contract Unit .absent (fun _ => .error ()) (fun _ => .error ()) (fun _ => .error ())).1 rfl

/-- C9: when add(T, member_id) succeeds and a User entry for member_id
already exists, the entry is replaced wholesale: name and updated_at
refreshed, channels mapping reset to the empty mapping. -/
theorem add_resets_user_channels (env : AddEnv) (st : Store) (team memberID : String)
    (t : Team) (u : User) (info : UserInfo)
    (hrt : env.readTeamsOk = true) (hwt : env.writeTeamsOk = true)
    (hru : env.readUsersOk = true) (hwu : env.writeUsersOk = true)
    (hteam : lookupK team st.teams = some t)
    (hnot : t.members.any (fun m => m.memberID = memberID) = false)
    (hinfo : env.userInfo = .ok info)
    (hu : lookupK memberID st.users = some u) :
    lookupK memberID (handleAdd env st team memberID).2.users =
      some { memberID := memberID, name := resolveName info, updatedAt := env.now, channels := [] } := by
  unfold handleAdd
  simp only [hrt, hwt, hru, hwu, hteam, hnot, hinfo, not_true_eq_false, if_false, Bool.false_eq_true]
  rw [lookupK_upsert]
  simp

/-- C10: if during add(T, member_id) the Teams write succeeds but the Users
load or Users write fails, the command still returns the success response
and the Users collection is left without the new/updated entry. -/
theorem add_users_failure_logged_only (env : AddEnv) (st : Store) (team memberID : String)
    (t : Team) (info : UserInfo)
    (hrt : env.readTeamsOk = true) (hwt : env.writeTeamsOk = true)
    (hteam : lookupK team st.teams = some t)
    (hnot : t.members.any (fun m => m.memberID = memberID) = false)
    (hinfo : env.userInfo = .ok info)
    (hfail : env.readUsersOk = false ∨ env.writeUsersOk = false) :
    (handleAdd env st team memberID).1 =
      responseSuccess ("Added user " ++ resolveName info ++ " (" ++ memberID ++ ") to team '" ++ team ++ "'.") ∧
    (handleAdd env st team memberID).2.users = st.users := by
  unfold handleAdd
  simp only [hrt, hwt, hteam, hnot, hinfo, not_true_eq_false, if_false, Bool.false_eq_true]
  rcases hfail with hf | hf
  · simp [hf]
  · by_cases hru : env.readUsersOk <;> simp [hru, hf]

/-- Witness for `ping_empty_team`: a concrete empty team and tracked channel. -/
theorem ping_empty_team_witness :
    (handlePing ⟨true, true, .ok ()⟩
      ⟨[("eng", ⟨[]⟩)], [], [("C9", ⟨"C9", "general"⟩)]⟩ "eng" "general").1.isError = true ∧
    (handlePing ⟨true, true, .ok ()⟩
      ⟨[("eng", ⟨[]⟩)], [], [("C9", ⟨"C9", "general"⟩)]⟩ "eng" "general").2 = [] :=
  ping_empty_team ⟨true, true, .ok ()⟩
    ⟨[("eng", ⟨[]⟩)], [], [("C9", ⟨"C9", "general"⟩)]⟩ "eng" "C9" ⟨"C9", "general"⟩ ⟨[]⟩
    (by decide) rfl (by decide)

/-- Witness for `addChannel_already_tracked`: a concrete tracked channel. -/
theorem addChannel_already_tracked_witness :
    (handleAddChannel ⟨true, .ok (), true⟩ ⟨[], [], [("C9", ⟨"C9", "general"⟩)]⟩ "C9" "general").resp =
      responseError ("Channel #" ++ "general" ++ " is already being tracked.") ∧
    (handleAddChannel ⟨true, .ok (), true⟩ ⟨[], [], [("C9", ⟨"C9", "general"⟩)]⟩ "C9" "general").joinCalled = false ∧
    (handleAddChannel ⟨true, .ok (), true⟩ ⟨[], [], [("C9", ⟨"C9", "general"⟩)]⟩ "C9" "general").store =
      ⟨[], [], [("C9", ⟨"C9", "general"⟩)]⟩ :=
  addChannel_already_tracked ⟨true, .ok (), true⟩ ⟨[], [], [("C9", ⟨"C9", "general"⟩)]⟩
    "C9" "general" ⟨"C9", "general"⟩ (by decide) (by decide) rfl (by decide)

/-- Witness for `add_resets_user_channels`: a user with a recorded channel
membership whose entry add replaces with an empty channels mapping. -/
theorem add_resets_user_channels_witness :
    lookupK "U1"
      (handleAdd ⟨true, .ok ⟨"ada.l", "Ada", false⟩, true, true, true, 7⟩
        ⟨[("eng", ⟨[]⟩)], [("U1", ⟨"U1", "Old", 3, [("C9", "U1")]⟩)], []⟩ "eng" "U1").2.users =
      some { memberID := "U1", name := resolveName ⟨"ada.l", "Ada", false⟩, updatedAt := 7, channels := [] } :=
  add_resets_user_channels ⟨true, .ok ⟨"ada.l", "Ada", false⟩, true, true, true, 7⟩
    ⟨[("eng", ⟨[]⟩)], [("U1", ⟨"U1", "Old", 3, [("C9", "U1")]⟩)], []⟩ "eng" "U1"
    ⟨[]⟩ ⟨"U1", "Old", 3, [("C9", "U1")]⟩ ⟨"ada.l", "Ada", false⟩
    rfl rfl rfl rfl (by decide) (by decide) rfl (by decide)

/-- Witness for `add_users_failure_logged_only`: the Users write fails, the
command still reports success and the Users collection keeps its old
contents. -/
theorem add_users_failure_logged_only_witness :
    (handleAdd ⟨true, .ok ⟨"ada.l", "Ada", false⟩, true, true, false, 7⟩
      ⟨[("eng", ⟨[]⟩)], [], []⟩ "eng" "U1").1 =
      responseSuccess ("Added user " ++ resolveName ⟨"ada.l", "Ada", false⟩ ++ " (" ++ "U1" ++ ") to team '" ++ "eng" ++ "'.") ∧
    (handleAdd ⟨true, .ok ⟨"ada.l", "Ada", false⟩, true, true, false, 7⟩
      ⟨[("eng", ⟨[]⟩)], [], []⟩ "eng" "U1").2.users = [] :=
  add_users_failure_logged_only ⟨true, .ok ⟨"ada.l", "Ada", false⟩, true, true, false, 7⟩
    ⟨[("eng", ⟨[]⟩)], [], []⟩ "eng" "U1" ⟨[]⟩ ⟨"ada.l", "Ada", false⟩
    rfl rfl (by decide) (by decide) rfl (Or.inr rfl)

/-- C3: for every team T existing in the store and every member_id not
currently in T, a successful add(T, member_id) followed by
remove(T, member_id) restores the teams collection (in particular T's
member list) exactly to its pre-add state, so print members T afterwards
lists exactly the pre-add members, none of which is member_id. -/
theorem add_remove_roundtrip (addEnv : AddEnv) (remEnv : TeamEnv) (printOk : Bool)
    (st : Store) (team memberID : String) (t : Team) (info : UserInfo)
    (hteam : lookupK team st.teams = some t)
    (hnot : ∀ m ∈ t.members, ¬ (m.memberID = memberID))
    (hart : addEnv.readTeamsOk = true) (hawt : addEnv.writeTeamsOk = true)
    (hinfo : addEnv.userInfo = .ok info)
    (hrrt : remEnv.readTeamsOk = true) (hrwt : remEnv.writeTeamsOk = true) :
    (handleRemove remEnv (handleAdd addEnv st team memberID).2 team memberID).2.teams = st.teams ∧
    lookupK team (handleRemove remEnv (handleAdd addEnv st team memberID).2 team memberID).2.teams = some t ∧
    printMembers printOk (handleRemove remEnv (handleAdd addEnv st team memberID).2 team memberID).2 team =
      printMembers printOk st team := by
  have hany : t.members.any (fun m => m.memberID = memberID) = false := by
    rw [List.any_eq_false]
    intro m hm
    simpa using hnot m hm
  have hst1 : (handleAdd addEnv st team memberID).2.teams =
      upsert team { members := t.members ++ [{ memberID := memberID, name := resolveName info, channels := [] }] } st.teams := by
    unfold handleAdd
    simp only [hart, hawt, hteam, hany, hinfo, not_true_eq_false, if_false, Bool.false_eq_true]
    by_cases hru : addEnv.readUsersOk <;> by_cases hwu : addEnv.writeUsersOk <;> simp [hru, hwu]
  have hst1users : (handleAdd addEnv st team memberID).2.users = st.users ∨
      (handleAdd addEnv st team memberID).2.users =
        upsert memberID { memberID := memberID, name := resolveName info, updatedAt := addEnv.now, channels := [] } st.users := by
    unfold handleAdd
    simp only [hart, hawt, hteam, hany, hinfo, not_true_eq_false, if_false, Bool.false_eq_true]
    by_cases hru : addEnv.readUsersOk <;> by_cases hwu : addEnv.writeUsersOk <;> simp [hru, hwu]
  have hchannels : (handleAdd addEnv st team memberID).2.channels = st.channels := by
    unfold handleAdd
    simp only [hart, hawt, hteam, hany, hinfo, not_true_eq_false, if_false, Bool.false_eq_true]
    by_cases hru : addEnv.readUsersOk <;> by_cases hwu : addEnv.writeUsersOk <;> simp [hru, hwu]
  have hlook1 : lookupK team (handleAdd addEnv st team memberID).2.teams =
      some { members := t.members ++ [{ memberID := memberID, name := resolveName info, channels := [] }] } := by
    rw [hst1, lookupK_upsert]
    simp
  have hrf : removeFirst memberID
      (t.members ++ [{ memberID := memberID, name := resolveName info, channels := [] }]) = some t.members :=
    removeFirst_append_not_mem hnot rfl
  have hteams2 : (handleRemove remEnv (handleAdd addEnv st team memberID).2 team memberID).2.teams = st.teams := by
    unfold handleRemove
    simp only [hrrt, hrwt, hlook1, hrf, not_true_eq_false, if_false]
    show (upsert team { members := t.members } ((handleAdd addEnv st team memberID).2.teams)) = st.teams
    rw [hst1, upsert_upsert]
    exact upsert_lookup_self hteam
  refine ⟨hteams2, ?_, ?_⟩
  · rw [hteams2]; exact hteam
  · unfold printMembers
    rw [hteams2]

/-- Witness for `add_remove_roundtrip`: a concrete one-member team. -/
theorem add_remove_roundtrip_witness :
    (handleRemove ⟨true, true⟩
      (handleAdd ⟨true, .ok ⟨"ada.l", "Ada", false⟩, true, true, true, 7⟩
        ⟨[("eng", ⟨[⟨"U0", "Zero", []⟩]⟩)], [], []⟩ "eng" "U1").2 "eng" "U1").2.teams =
      [("eng", ⟨[⟨"U0", "Zero", []⟩]⟩)] ∧
    lookupK "eng" (handleRemove ⟨true, true⟩
      (handleAdd ⟨true, .ok ⟨"ada.l", "Ada", false⟩, true, true, true, 7⟩
        ⟨[("eng", ⟨[⟨"U0", "Zero", []⟩]⟩)], [], []⟩ "eng" "U1").2 "eng" "U1").2.teams =
      some ⟨[⟨"U0", "Zero", []⟩]⟩ ∧
    printMembers true (handleRemove ⟨true, true⟩
      (handleAdd ⟨true, .ok ⟨"ada.l", "Ada", false⟩, true, true, true, 7⟩
        ⟨[("eng", ⟨[⟨"U0", "Zero", []⟩]⟩)], [], []⟩ "eng" "U1").2 "eng" "U1").2 "eng" =
      printMembers true ⟨[("eng", ⟨[⟨"U0", "Zero", []⟩]⟩)], [], []⟩ "eng" :=
  add_remove_roundtrip ⟨true, .ok ⟨"ada.l", "Ada", false⟩, true, true, true, 7⟩ ⟨true, true⟩ true
    ⟨[("eng", ⟨[⟨"U0", "Zero", []⟩]⟩)], [], []⟩ "eng" "U1" ⟨[⟨"U0", "Zero", []⟩]⟩ ⟨"ada.l", "Ada", false⟩
    (by decide) (by decide) rfl rfl rfl rfl rfl

/-- C4 counterexample: two enumerations of the same Channels collection
(equal as maps: same bindings, permutations of one another) on which the
name-to-id scan of handlePing / handleRemoveChannel resolves different
channel ids when two tracked channels share the name, so resolution on a
fixed collection is not deterministic (Go map iteration order is
unspecified). -/
theorem resolveChannel_order_dependent :
    (∀ k, lookupK k
        [("C1", Channel.mk "C1" "general"), ("C2", Channel.mk "C2" "general")] =
      lookupK k
        [("C2", Channel.mk "C2" "general"), ("C1", Channel.mk "C1" "general")]) ∧
    List.Perm
      [("C1", Channel.mk "C1" "general"), ("C2", Channel.mk "C2" "general")]
      [("C2", Channel.mk "C2" "general"), ("C1", Channel.mk "C1" "general")] ∧
    ¬ (resolveChannel "general"
        [("C1", Channel.mk "C1" "general"), ("C2", Channel.mk "C2" "general")] =
       resolveChannel "general"
        [("C2", Channel.mk "C2" "general"), ("C1", Channel.mk "C1" "general")]) := by
  refine ⟨?_, ?_, by decide⟩
  · intro k
    by_cases h1 : "C1" = k
    · subst h1; decide
    · by_cases h2 : "C2" = k
      · subst h2; decide
      · simp [lookupK, h1, h2]
  · exact List.Perm.swap _ _ _

/-- Helper for the amended C4: when exactly one binding of the collection
carries the requested name, the linear scan returns its id whatever the
enumeration order. -/
theorem resolveChannel_of_unique {l : ChannelsT} {name id : String} {c : Channel}
    (hmem : (id, c) ∈ l) (hname : c.name = name)
    (huniq : ∀ p ∈ l, p.2.name = name → p = (id, c)) :
    resolveChannel name l = id := by
  induction l with
  | nil => simp at hmem
  | cons p rest ih =>
    obtain ⟨pk, pc⟩ := p
    by_cases hp : pc.name = name
    · have heq := huniq (pk, pc) (by simp) hp
      simp only [resolveChannel, if_pos hp]
      exact congrArg Prod.fst heq
    · simp only [resolveChannel, if_neg hp]
      apply ih
      · rcases List.mem_cons.mp hmem with h | h
        · exfalso
          apply hp
          have : pc = c := congrArg Prod.snd h.symm
          rw [this, hname]
        · exact h
      · exact fun q hq hq' => huniq q (List.mem_cons_of_mem _ hq) hq'

/-- C4 amended: channel name-to-id resolution is a linear scan in the
collection's iteration order comparing the stored name for exact equality,
first match winning; because Go leaves the iteration order of the Channels
map unspecified, resolution on a fixed collection is deterministic exactly
when at most one tracked channel bears the name: then every enumeration
order of the collection resolves the same id. -/
theorem resolveChannel_unique_det (l₁ l₂ : ChannelsT) (name id : String) (c : Channel)
    (hperm : l₁.Perm l₂) (hmem : (id, c) ∈ l₁) (hname : c.name = name)
    (huniq : ∀ p ∈ l₁, p.2.name = name → p = (id, c)) :
    resolveChannel name l₁ = id ∧ resolveChannel name l₂ = id := by
  refine ⟨resolveChannel_of_unique hmem hname huniq, ?_⟩
  exact resolveChannel_of_unique (hperm.subset hmem) hname
    (fun q hq hq' => huniq q (hperm.symm.subset hq) hq')

/-- Witness for `resolveChannel_unique_det`: a uniquely named channel is
resolved to the same id under both enumeration orders. -/
theorem resolveChannel_unique_det_witness :
    resolveChannel "general"
      [("C1", Channel.mk "C1" "general"), ("C2", Channel.mk "C2" "random")] = "C1" ∧
    resolveChannel "general"
      [("C2", Channel.mk "C2" "random"), ("C1", Channel.mk "C1" "general")] = "C1" :=
  resolveChannel_unique_det
    [("C1", Channel.mk "C1" "general"), ("C2", Channel.mk "C2" "random")]
    [("C2", Channel.mk "C2" "random"), ("C1", Channel.mk "C1" "general")]
    "general" "C1" (Channel.mk "C1" "general")
    (List.Perm.swap _ _ _) (by decide) rfl (by decide)

/-- The denormalized-name invariant of the spec data model: every team
member whose `member_id` has a Users entry carries the same name as that
entry. -/
def NameSync (users : UsersT) (teams : TeamsT) : Prop :=
  ∀ tn t, lookupK tn teams = some t → ∀ m ∈ t.members,
    ∀ u, lookupK m.memberID users = some u → m.name = u.name

theorem refreshUser_lookup_self (memberID displayName channelID : String) (now : Nat) (users : UsersT) :
    ∃ u, lookupK memberID (refreshUser memberID displayName channelID now users) = some u ∧
      u.name = displayName := by
  unfold refreshUser
  cases hlk : lookupK memberID users with
  | none => rw [lookupK_upsert]; simp [hlk]
  | some u0 => rw [lookupK_upsert]; simp [hlk]

theorem refreshUser_lookup_other {k memberID : String} (displayName channelID : String)
    (now : Nat) (users : UsersT) (hne : ¬ (memberID = k)) :
    lookupK k (refreshUser memberID displayName channelID now users) = lookupK k users := by
  unfold refreshUser
  rw [lookupK_upsert]
  simp [hne]

theorem lookupK_updateTeamsMember (tn memberID displayName channelID : String) (teams : TeamsT) :
    lookupK tn (updateTeamsMember memberID displayName channelID teams) =
      (lookupK tn teams).map
        (fun t => { members := t.members.map (refreshMember memberID displayName channelID) }) := by
  unfold updateTeamsMember
  exact lookupK_map_val tn
    (fun t : Team => ({ members := t.members.map (refreshMember memberID displayName channelID) } : Team)) teams

theorem refreshMember_memberID (memberID displayName channelID : String) (m : Member) :
    (refreshMember memberID displayName channelID m).memberID = m.memberID := by
  unfold refreshMember
  by_cases h : m.memberID = memberID <;> simp [h]

theorem nameSync_processMember (channelID : String) (profiles : String → Except String UserInfo)
    (now : Nat) (acc : UsersT × TeamsT) (memberID : String)
    (h : NameSync acc.1 acc.2) :
    NameSync (processMember channelID profiles now acc memberID).1
      (processMember channelID profiles now acc memberID).2 := by
  unfold processMember
  cases hp : profiles memberID with
  | error e => exact h
  | ok info =>
    by_cases hb : info.isBot
    · simp only [hb, if_true]
      exact h
    · simp only [hb, if_false, Bool.false_eq_true]
      intro tn t' hlook m' hm' u' hu'
      rw [lookupK_updateTeamsMember] at hlook
      cases hlk : lookupK tn acc.2 with
      | none => rw [hlk] at hlook; simp at hlook
      | some t =>
        rw [hlk] at hlook
        simp only [Option.map_some', Option.some.injEq] at hlook
        subst hlook
        simp only [List.mem_map] at hm'
        obtain ⟨m, hm, hmm⟩ := hm'
        subst hmm
        by_cases hmid : m.memberID = memberID
        · have hid : (refreshMember memberID (resolveName info) channelID m).memberID = memberID := by
            rw [refreshMember_memberID, hmid]
          rw [hid] at hu'
          obtain ⟨u'', hu'', hn⟩ := refreshUser_lookup_self memberID (resolveName info) channelID now acc.1
          rw [hu''] at hu'
          cases hu'
          have : (refreshMember memberID (resolveName info) channelID m).name = resolveName info := by
            unfold refreshMember
            simp [hmid]
          rw [this, hn]
        · have hidm : (refreshMember memberID (resolveName info) channelID m) = m := by
            unfold refreshMember
            simp [hmid]
          rw [hidm] at hu' ⊢
          rw [refreshUser_lookup_other _ _ _ _ (fun he => hmid he.symm)] at hu'
          exact h tn t hlk m hm u' hu'

theorem nameSync_reconCore (channelID : String) (profiles : String → Except String UserInfo)
    (now : Nat) (l : List String) :
    ∀ (users : UsersT) (teams : TeamsT), NameSync users teams →
      NameSync (reconCore channelID profiles now l users teams).1
        (reconCore channelID profiles now l users teams).2 := by
  induction l with
  | nil => intro users teams h; exact h
  | cons x xs ih =>
    intro users teams h
    have hstep := nameSync_processMember channelID profiles now (users, teams) x h
    have : reconCore channelID profiles now (x :: xs) users teams =
        reconCore channelID profiles now xs
          (processMember channelID profiles now (users, teams) x).1
          (processMember channelID profiles now (users, teams) x).2 := by
      unfold reconCore
      rw [List.foldl_cons]
    rw [this]
    exact ih _ _ hstep

/-- C1 amended: a reconciliation pass whose two saves both succeed
preserves the name-agreement property: if before the pass every team
member with a Users entry carried that entry's name, the same holds
after the pass.  (A single pass does not establish the property from an
arbitrary state: members outside the processed channel are untouched,
see `reconcile_nameSync_not_established`.) -/
theorem reconcile_preserves_nameSync (env : ReconEnv) (channelID : String) (st : Store)
    (hwu : env.writeUsersOk = true) (hwt : env.writeTeamsOk = true)
    (h : NameSync st.users st.teams) :
    NameSync (updateUserInfoForChannel env channelID st).users
      (updateUserInfoForChannel env channelID st).teams := by
  unfold updateUserInfoForChannel
  by_cases h1 : env.readUsersOk
  · by_cases h2 : env.readTeamsOk
    · cases hm : env.channelMembers with
      | error e => simp only [h1, h2, hm, not_true_eq_false, if_false]; exact h
      | ok l =>
        simp only [h1, h2, hm, hwu, hwt, not_true_eq_false, if_false, if_true]
        exact nameSync_reconCore channelID env.userInfo env.now l st.users st.teams h
    · simp only [h1, h2, not_true_eq_false, if_false, not_false_eq_true, if_true]
      exact h
  · simp only [h1, not_false_eq_true, if_true]
    exact h

/-- A store carrying a pre-existing name divergence: team member "U" is
named "B" while the Users entry for "U" is named "A". -/
def nameSyncCexStore : Store :=
  { teams := [("t", { members := [{ memberID := "U", name := "B", channels := [] }] })],
    users := [("U", { memberID := "U", name := "A", updatedAt := 0, channels := [] })],
    channels := [] }

/-- A reconciliation environment in which every read and both saves
succeed and the processed channel has no members. -/
def nameSyncCexEnv : ReconEnv :=
  { readUsersOk := true, readTeamsOk := true, channelMembers := .ok [],
    userInfo := fun _ => .error "", writeUsersOk := true, writeTeamsOk := true, now := 5 }

/-- C1 counterexample: a reconciliation pass that completes with both
saves succeeding does not make every team member's name equal its Users
entry's name — a member absent from the processed channel keeps a
pre-existing divergent name. -/
theorem reconcile_nameSync_not_established :
    nameSyncCexEnv.writeUsersOk = true ∧ nameSyncCexEnv.writeTeamsOk = true ∧
    ∃ tn t, lookupK tn (updateUserInfoForChannel nameSyncCexEnv "C9" nameSyncCexStore).teams = some t ∧
      ∃ m ∈ t.members, ∃ u,
        lookupK m.memberID (updateUserInfoForChannel nameSyncCexEnv "C9" nameSyncCexStore).users = some u ∧
        ¬ (m.name = u.name) := by
  refine ⟨rfl, rfl, "t", { members := [{ memberID := "U", name := "B", channels := [] }] }, ?_,
    { memberID := "U", name := "B", channels := [] }, ?_,
    { memberID := "U", name := "A", updatedAt := 0, channels := [] }, ?_, ?_⟩
  · decide
  · decide
  · decide
  · decide

/-- Witness for `reconcile_preserves_nameSync`: a pass over a channel
containing "U" preserves name agreement on a store where it held. -/
theorem reconcile_preserves_nameSync_witness :
    NameSync
      (updateUserInfoForChannel
        { readUsersOk := true, readTeamsOk := true, channelMembers := .ok ["U"],
          userInfo := fun _ => .ok { name := "u.ada", displayName := "Ada2", isBot := false },
          writeUsersOk := true, writeTeamsOk := true, now := 9 }
        "C9"
        { teams := [("t", { members := [{ memberID := "U", name := "Ada", channels := [] }] })],
          users := [("U", { memberID := "U", name := "Ada", updatedAt := 3, channels := [] })],
          channels := [] }).users
      (updateUserInfoForChannel
        { readUsersOk := true, readTeamsOk := true, channelMembers := .ok ["U"],
          userInfo := fun _ => .ok { name := "u.ada", displayName := "Ada2", isBot := false },
          writeUsersOk := true, writeTeamsOk := true, now := 9 }
        "C9"
        { teams := [("t", { members := [{ memberID := "U", name := "Ada", channels := [] }] })],
          users := [("U", { memberID := "U", name := "Ada", updatedAt := 3, channels := [] })],
          channels := [] }).teams :=
  reconcile_preserves_nameSync _ "C9" _ rfl rfl (by
    intro tn t hl m hm u hu
    by_cases ht : "t" = tn
    · simp only [lookupK, if_pos ht, Option.some.injEq] at hl
      subst hl
      simp only [List.mem_singleton] at hm
      subst hm
      simp [lookupK] at hu
      subst hu
      rfl
    · simp [lookupK, ht] at hl)

/-- The uniqueness invariant of claim C8: within every team of the
collection, `member_id` values are pairwise distinct. -/
def TeamsInv (teams : TeamsT) : Prop :=
  ∀ p ∈ teams, (p.2.members.map Member.memberID).Nodup

theorem teamsInv_upsert {l : TeamsT} {k : String} {t : Team}
    (h : TeamsInv l) (ht : (t.members.map Member.memberID).Nodup) : TeamsInv (upsert k t l) := by
  intro p hp
  rcases mem_upsert hp with he | hm
  · subst he; exact ht
  · exact h p hm

theorem teamsInv_eraseK {l : TeamsT} {k : String} (h : TeamsInv l) : TeamsInv (eraseK k l) :=
  fun p hp => h p (mem_eraseK hp)

theorem teamsInv_handleCreateTeam (env : TeamEnv) (st : Store) (team : String)
    (h : TeamsInv st.teams) : TeamsInv (handleCreateTeam env st team).2.teams := by
  unfold handleCreateTeam
  by_cases h1 : env.readTeamsOk
  · cases hlk : lookupK team st.teams with
    | some t => simp only [h1, hlk, not_true_eq_false, if_false]; exact h
    | none =>
      by_cases h2 : env.writeTeamsOk
      · simp only [h1, hlk, h2, not_true_eq_false, if_false]
        exact teamsInv_upsert h (by simp)
      · simp only [h1, hlk, h2, not_true_eq_false, if_false, not_false_eq_true, if_true]
        exact h
  · simp only [h1, not_false_eq_true, if_true]
    exact h

theorem teamsInv_handleRemoveTeam (env : TeamEnv) (st : Store) (team : String)
    (h : TeamsInv st.teams) : TeamsInv (handleRemoveTeam env st team).2.teams := by
  unfold handleRemoveTeam
  by_cases h1 : env.readTeamsOk
  · cases hlk : lookupK team st.teams with
    | none => simp only [h1, hlk, not_true_eq_false, if_false]; exact h
    | some t =>
      by_cases h2 : env.writeTeamsOk
      · simp only [h1, hlk, h2, not_true_eq_false, if_false]
        exact teamsInv_eraseK h
      · simp only [h1, hlk, h2, not_true_eq_false, if_false, not_false_eq_true, if_true]
        exact h
  · simp only [h1, not_false_eq_true, if_true]
    exact h

theorem teamsInv_handleAdd (env : AddEnv) (st : Store) (team memberID : String)
    (h : TeamsInv st.teams) : TeamsInv (handleAdd env st team memberID).2.teams := by
  unfold handleAdd
  by_cases h1 : env.readTeamsOk
  · cases hlk : lookupK team st.teams with
    | none => simp only [h1, hlk, not_true_eq_false, if_false]; exact h
    | some t =>
      by_cases h2 : t.members.any (fun m => m.memberID = memberID)
      · simp only [h1, hlk, h2, not_true_eq_false, if_false, if_true]
        exact h
      · cases hinfo : env.userInfo with
        | error e => simp only [h1, hlk, h2, hinfo, not_true_eq_false, if_false, Bool.false_eq_true]; exact h
        | ok info =>
          by_cases h3 : env.writeTeamsOk
          · have hnodup : ((t.members ++
                [{ memberID := memberID, name := resolveName info, channels := [] : Member }]).map
                  Member.memberID).Nodup := by
              rw [List.map_append]
              rw [List.nodup_append]
              refine ⟨h (team, t) (lookupK_mem hlk), by simp, ?_⟩
              intro x hx hx'
              simp only [List.map_cons, List.map_nil, List.mem_singleton] at hx'
              subst hx'
              simp only [List.mem_map] at hx
              obtain ⟨m, hm, hmid⟩ := hx
              exact h2 (List.any_eq_true.mpr ⟨m, hm, by simpa using hmid⟩)
            by_cases h4 : env.readUsersOk <;> by_cases h5 : env.writeUsersOk <;>
              simp only [h1, hlk, h2, hinfo, h3, h4, h5, not_true_eq_false, if_false,
                Bool.false_eq_true, not_false_eq_true, if_true] <;>
              exact teamsInv_upsert h hnodup
          · simp only [h1, hlk, h2, hinfo, h3, not_true_eq_false, if_false,
              Bool.false_eq_true, not_false_eq_true, if_true]
            exact h
  · simp only [h1, not_false_eq_true, if_true]
    exact h

theorem teamsInv_handleRemove (env : TeamEnv) (st : Store) (team memberID : String)
    (h : TeamsInv st.teams) : TeamsInv (handleRemove env st team memberID).2.teams := by
  unfold handleRemove
  by_cases h1 : env.readTeamsOk
  · cases hlk : lookupK team st.teams with
    | none => simp only [h1, hlk, not_true_eq_false, if_false]; exact h
    | some t =>
      cases hrf : removeFirst memberID t.members with
      | none => simp only [h1, hlk, hrf, not_true_eq_false, if_false]; exact h
      | some members' =>
        by_cases h2 : env.writeTeamsOk
        · simp only [h1, hlk, hrf, h2, not_true_eq_false, if_false]
          apply teamsInv_upsert h
          exact ((removeFirst_sublist hrf).map Member.memberID).nodup (h (team, t) (lookupK_mem hlk))
        · simp only [h1, hlk, hrf, h2, not_true_eq_false, if_false, not_false_eq_true, if_true]
          exact h
  · simp only [h1, not_false_eq_true, if_true]
    exact h

theorem teamsInv_updateTeamsMember (memberID displayName channelID : String) {ts : TeamsT}
    (h : TeamsInv ts) : TeamsInv (updateTeamsMember memberID displayName channelID ts) := by
  intro p hp
  unfold updateTeamsMember at hp
  simp only [List.mem_map] at hp
  obtain ⟨q, hq, hpq⟩ := hp
  subst hpq
  have hcomp : Member.memberID ∘ refreshMember memberID displayName channelID = Member.memberID :=
    funext (refreshMember_memberID memberID displayName channelID)
  show ((q.2.members.map (refreshMember memberID displayName channelID)).map Member.memberID).Nodup
  rw [List.map_map, hcomp]
  exact h q hq

theorem teamsInv_processMember (channelID : String) (profiles : String → Except String UserInfo)
    (now : Nat) (acc : UsersT × TeamsT) (memberID : String)
    (h : TeamsInv acc.2) : TeamsInv (processMember channelID profiles now acc memberID).2 := by
  unfold processMember
  cases hp : profiles memberID with
  | error e => exact h
  | ok info =>
    by_cases hb : info.isBot
    · simp only [hb, if_true]; exact h
    · simp only [hb, if_false, Bool.false_eq_true]
      exact teamsInv_updateTeamsMember _ _ _ h

theorem teamsInv_reconCore (channelID : String) (profiles : String → Except String UserInfo)
    (now : Nat) (l : List String) :
    ∀ (users : UsersT) (teams : TeamsT), TeamsInv teams →
      TeamsInv (reconCore channelID profiles now l users teams).2 := by
  induction l with
  | nil => intro users teams h; exact h
  | cons x xs ih =>
    intro users teams h
    have : reconCore channelID profiles now (x :: xs) users teams =
        reconCore channelID profiles now xs
          (processMember channelID profiles now (users, teams) x).1
          (processMember channelID profiles now (users, teams) x).2 := by
      unfold reconCore
      rw [List.foldl_cons]
    rw [this]
    exact ih _ _ (teamsInv_processMember channelID profiles now (users, teams) x h)

theorem teamsInv_reconcile (env : ReconEnv) (channelID : String) (st : Store)
    (h : TeamsInv st.teams) : TeamsInv (updateUserInfoForChannel env channelID st).teams := by
  unfold updateUserInfoForChannel
  by_cases h1 : env.readUsersOk
  · by_cases h2 : env.readTeamsOk
    · cases hm : env.channelMembers with
      | error e => simp only [h1, h2, hm, not_true_eq_false, if_false]; exact h
      | ok l =>
        simp only [h1, h2, hm, not_true_eq_false, if_false]
        by_cases h3 : env.writeTeamsOk
        · simp only [h3, if_true]
          exact teamsInv_reconCore channelID env.userInfo env.now l st.users st.teams h
        · simp only [h3, Bool.false_eq_true, if_false]
          exact h
    · simp only [h1, h2, not_true_eq_false, if_false, not_false_eq_true, if_true]
      exact h
  · simp only [h1, not_false_eq_true, if_true]
    exact h

/-- C8: within every team, member_id values are unique: starting from a
state satisfying this, each of create-team, remove-team, add (which
rejects a member_id already present), remove, and the reconciliation
pass (which never adds or removes members) preserves it. -/
theorem memberID_unique_invariant (op : Op) (st : Store) (h : TeamsInv st.teams) :
    TeamsInv (applyOp op st).teams := by
  cases op with
  | createTeam env team => exact teamsInv_handleCreateTeam env st team h
  | removeTeam env team => exact teamsInv_handleRemoveTeam env st team h
  | addMember env team memberID => exact teamsInv_handleAdd env st team memberID h
  | removeMember env team memberID => exact teamsInv_handleRemove env st team memberID h
  | reconcile env channelID => exact teamsInv_reconcile env channelID st h

/-- Witness for `memberID_unique_invariant`: adding a fresh member to a
concrete two-member team keeps its member ids pairwise distinct. -/
theorem memberID_unique_invariant_witness :
    TeamsInv (applyOp
      (Op.addMember ⟨true, .ok ⟨"ada.l", "Ada", false⟩, true, true, true, 7⟩ "eng" "U2")
      ⟨[("eng", ⟨[⟨"U0", "Zero", []⟩, ⟨"U1", "One", []⟩]⟩)], [], []⟩).teams :=
  memberID_unique_invariant
    (Op.addMember ⟨true, .ok ⟨"ada.l", "Ada", false⟩, true, true, true, 7⟩ "eng" "U2")
    ⟨[("eng", ⟨[⟨"U0", "Zero", []⟩, ⟨"U1", "One", []⟩]⟩)], [], []⟩
    (by unfold TeamsInv; decide)

theorem lookupK_eraseTimes (k : String) (us : UsersT) :
    lookupK k (eraseTimes us) = (lookupK k us).map eraseTime := by
  unfold eraseTimes
  exact lookupK_map_val k eraseTime us

theorem eraseTimes_upsert (k : String) (v : User) (us : UsersT) :
    eraseTimes (upsert k v us) = upsert k (eraseTime v) (eraseTimes us) := by
  unfold eraseTimes
  exact upsert_map_val k v eraseTime us

theorem refreshUser_erase (memberID displayName channelID : String) (now : Nat) (users : UsersT) :
    refreshUser memberID displayName channelID 0 (eraseTimes users) =
      eraseTimes (refreshUser memberID displayName channelID now users) := by
  unfold refreshUser
  rw [lookupK_eraseTimes]
  cases hlk : lookupK memberID users with
  | none =>
    simp only [hlk, Option.map_none']
    rw [eraseTimes_upsert]
    rfl
  | some u =>
    simp only [hlk, Option.map_some']
    rw [eraseTimes_upsert]
    rfl

theorem processMember_snd_indep (c : String) (p : String → Except String UserInfo)
    (n n' : Nat) (us us' : UsersT) (ts : TeamsT) (mid : String) :
    (processMember c p n (us, ts) mid).2 = (processMember c p n' (us', ts) mid).2 := by
  unfold processMember
  cases hp : p mid with
  | error e => rfl
  | ok info => by_cases hb : info.isBot <;> simp [hb]

theorem processMember_fst_erase (c : String) (p : String → Except String UserInfo)
    (now : Nat) (us : UsersT) (ts ts' : TeamsT) (mid : String) :
    (processMember c p 0 (eraseTimes us, ts') mid).1 =
      eraseTimes (processMember c p now (us, ts) mid).1 := by
  unfold processMember
  cases hp : p mid with
  | error e => rfl
  | ok info =>
    by_cases hb : info.isBot
    · simp [hb]
    · simp only [hb, if_false, Bool.false_eq_true]
      exact refreshUser_erase mid (resolveName info) c now us

theorem reconCore_cons (c : String) (p : String → Except String UserInfo) (n : Nat)
    (x : String) (xs : List String) (us : UsersT) (ts : TeamsT) :
    reconCore c p n (x :: xs) us ts =
      reconCore c p n xs (processMember c p n (us, ts) x).1 (processMember c p n (us, ts) x).2 := by
  unfold reconCore
  rw [List.foldl_cons]

theorem reconCore_snd_indep (c : String) (p : String → Except String UserInfo) :
    ∀ (l : List String) (n n' : Nat) (us us' : UsersT) (ts : TeamsT),
      (reconCore c p n l us ts).2 = (reconCore c p n' l us' ts).2 := by
  intro l
  induction l with
  | nil => intro n n' us us' ts; rfl
  | cons x xs ih =>
    intro n n' us us' ts
    rw [reconCore_cons, reconCore_cons]
    rw [show (processMember c p n (us, ts) x).2 = (processMember c p n' (us', ts) x).2 from
      processMember_snd_indep c p n n' us us' ts x]
    exact ih n n' _ _ _

theorem reconCore_erase (c : String) (p : String → Except String UserInfo) :
    ∀ (l : List String) (now : Nat) (us : UsersT) (ts : TeamsT),
      reconCore c p 0 l (eraseTimes us) ts =
        (eraseTimes (reconCore c p now l us ts).1, (reconCore c p now l us ts).2) := by
  intro l
  induction l with
  | nil => intro now us ts; rfl
  | cons x xs ih =>
    intro now us ts
    rw [reconCore_cons, reconCore_cons]
    rw [processMember_fst_erase c p now us ts ts x]
    rw [show (processMember c p 0 (eraseTimes us, ts) x).2 = (processMember c p now (us, ts) x).2 from
      processMember_snd_indep c p 0 now (eraseTimes us) us ts x]
    exact ih now _ _

/-- A member id is settled for a channel pass when, should its profile
fetch succeed with a non-bot profile, its Users entry and every matching
team member already carry exactly what the pass would write: the
resolved name, the pass timestamp, and this channel's membership. -/
def Settled (c : String) (p : String → Except String UserInfo) (now : Nat)
    (us : UsersT) (ts : TeamsT) (mid : String) : Prop :=
  ∀ info, p mid = .ok info → info.isBot = false →
    (∃ u, lookupK mid us = some u ∧ u.name = resolveName info ∧ u.updatedAt = now ∧
      lookupK c u.channels = some mid) ∧
    (∀ q ∈ ts, ∀ m ∈ q.2.members, m.memberID = mid →
      m.name = resolveName info ∧ lookupK c m.channels = some mid)

theorem processMember_of_settled {c : String} {p : String → Except String UserInfo} {now : Nat}
    {us : UsersT} {ts : TeamsT} {mid : String}
    (h : Settled c p now us ts mid) : processMember c p now (us, ts) mid = (us, ts) := by
  unfold processMember
  cases hp : p mid with
  | error e => rfl
  | ok info =>
    by_cases hb : info.isBot
    · simp [hb]
    · simp only [hb, if_false, Bool.false_eq_true]
      have hb' : info.isBot = false := by revert hb; cases info.isBot <;> simp
      obtain ⟨⟨u, hu, hname, htime, hchan⟩, hteams⟩ := h info hp hb'
      have hfst : refreshUser mid (resolveName info) c now us = us := by
        unfold refreshUser
        simp only [hu]
        have hch : upsert c mid u.channels = u.channels := upsert_lookup_self hchan
        have hval : ({ memberID := u.memberID, name := resolveName info, updatedAt := now,
                       channels := upsert c mid u.channels } : User) = u := by
          obtain ⟨a, b, t0, d⟩ := u
          simp only at hname htime hch ⊢
          rw [hname, htime, hch]
        rw [hval]
        exact upsert_lookup_self hu
      have hsnd : updateTeamsMember mid (resolveName info) c ts = ts := by
        unfold updateTeamsMember
        have hqs : ∀ q ∈ ts,
            (fun q : String × Team =>
              (q.1, ({ members := q.2.members.map (refreshMember mid (resolveName info) c) } : Team))) q =
            id q := by
          intro q hq
          have hpt : ∀ m ∈ q.2.members, refreshMember mid (resolveName info) c m = m := by
            intro m hm
            by_cases hmid : m.memberID = mid
            · obtain ⟨hn, hc⟩ := hteams q hq m hm hmid
              unfold refreshMember
              rw [if_pos hmid]
              obtain ⟨ma, mb, md⟩ := m
              simp only at hn hc ⊢
              rw [hn, upsert_lookup_self hc]
            · unfold refreshMember
              rw [if_neg hmid]
          have hmem : q.2.members.map (refreshMember mid (resolveName info) c) = q.2.members := by
            calc q.2.members.map (refreshMember mid (resolveName info) c)
                = q.2.members.map id := List.map_congr_left hpt
              _ = q.2.members := List.map_id _
          show (q.1, ({ members := q.2.members.map (refreshMember mid (resolveName info) c) } : Team)) = q
          rw [hmem]
        calc ts.map (fun q : String × Team =>
              (q.1, ({ members := q.2.members.map (refreshMember mid (resolveName info) c) } : Team)))
            = ts.map id := List.map_congr_left hqs
          _ = ts := List.map_id _
      rw [hfst, hsnd]

theorem processMember_settles (c : String) (p : String → Except String UserInfo) (now : Nat)
    (us : UsersT) (ts : TeamsT) (mid : String) :
    Settled c p now (processMember c p now (us, ts) mid).1
      (processMember c p now (us, ts) mid).2 mid := by
  cases hp : p mid with
  | error e =>
    intro info hinfo hbot
    rw [hp] at hinfo
    exact absurd hinfo (by simp)
  | ok info' =>
    by_cases hb : info'.isBot
    · intro info hinfo hbot
      rw [hp] at hinfo
      injection hinfo with he
      subst he
      rw [hbot] at hb
      exact absurd hb (by simp)
    · have hres : processMember c p now (us, ts) mid =
          (refreshUser mid (resolveName info') c now us,
           updateTeamsMember mid (resolveName info') c ts) := by
        unfold processMember
        rw [hp]
        simp [hb]
      rw [hres]
      intro info hinfo hbot
      rw [hp] at hinfo
      injection hinfo with he
      subst he
      constructor
      · unfold refreshUser
        cases hlk : lookupK mid us with
        | none =>
          simp only [hlk]
          exact ⟨{ memberID := mid, name := resolveName info', updatedAt := now,
                   channels := upsert c mid ([] : List (String × String)) },
            by rw [lookupK_upsert]; simp, rfl, rfl, by rw [lookupK_upsert]; simp⟩
        | some u =>
          simp only [hlk]
          exact ⟨{ memberID := u.memberID, name := resolveName info', updatedAt := now,
                   channels := upsert c mid u.channels },
            by rw [lookupK_upsert]; simp, rfl, rfl, by rw [lookupK_upsert]; simp⟩
      · intro q hq m hm hmid
        unfold updateTeamsMember at hq
        simp only [List.mem_map] at hq
        obtain ⟨r, hr, hqr⟩ := hq
        subst hqr
        simp only [List.mem_map] at hm
        obtain ⟨m₀, hm₀, hmm⟩ := hm
        subst hmm
        by_cases h0 : m₀.memberID = mid
        · unfold refreshMember
          rw [if_pos h0]
          refine ⟨rfl, ?_⟩
          show lookupK c (upsert c mid m₀.channels) = some mid
          rw [lookupK_upsert]
          simp
        · exfalso
          rw [refreshMember_memberID] at hmid
          exact h0 hmid

theorem processMember_preserves_settled {c : String} {p : String → Except String UserInfo}
    {now : Nat} {us : UsersT} {ts : TeamsT} {mid mid' : String} (hne : ¬ (mid' = mid))
    (h : Settled c p now us ts mid) :
    Settled c p now (processMember c p now (us, ts) mid').1
      (processMember c p now (us, ts) mid').2 mid := by
  cases hp' : p mid' with
  | error e =>
    have hres : processMember c p now (us, ts) mid' = (us, ts) := by
      unfold processMember
      rw [hp']
    rw [hres]
    exact h
  | ok info' =>
    by_cases hb : info'.isBot
    · have hres : processMember c p now (us, ts) mid' = (us, ts) := by
        unfold processMember
        rw [hp']
        simp [hb]
      rw [hres]
      exact h
    · have hres : processMember c p now (us, ts) mid' =
          (refreshUser mid' (resolveName info') c now us,
           updateTeamsMember mid' (resolveName info') c ts) := by
        unfold processMember
        rw [hp']
        simp [hb]
      rw [hres]
      intro info hinfo hbot
      obtain ⟨⟨u, hu, hname, htime, hchan⟩, hteams⟩ := h info hinfo hbot
      constructor
      · refine ⟨u, ?_, hname, htime, hchan⟩
        rw [refreshUser_lookup_other _ _ _ _ hne]
        exact hu
      · intro q hq m hm hmid
        unfold updateTeamsMember at hq
        simp only [List.mem_map] at hq
        obtain ⟨r, hr, hqr⟩ := hq
        subst hqr
        simp only [List.mem_map] at hm
        obtain ⟨m₀, hm₀, hmm⟩ := hm
        subst hmm
        rw [refreshMember_memberID] at hmid
        have hne0 : ¬ (m₀.memberID = mid') := fun he => hne (by rw [← he, hmid])
        have hid : refreshMember mid' (resolveName info') c m₀ = m₀ := by
          unfold refreshMember
          rw [if_neg hne0]
        rw [hid]
        exact hteams r hr m₀ hm₀ hmid

theorem reconCore_preserves_settled (c : String) (p : String → Except String UserInfo) (now : Nat) :
    ∀ (xs : List String) (us : UsersT) (ts : TeamsT) (mid : String),
      Settled c p now us ts mid →
      Settled c p now (reconCore c p now xs us ts).1 (reconCore c p now xs us ts).2 mid := by
  intro xs
  induction xs with
  | nil => intro us ts mid h; exact h
  | cons x rest ih =>
    intro us ts mid h
    rw [reconCore_cons]
    apply ih
    by_cases he : x = mid
    · subst he
      exact processMember_settles c p now us ts x
    · exact processMember_preserves_settled he h

theorem reconCore_settles_all (c : String) (p : String → Except String UserInfo) (now : Nat) :
    ∀ (l : List String) (us : UsersT) (ts : TeamsT) (mid : String), mid ∈ l →
      Settled c p now (reconCore c p now l us ts).1 (reconCore c p now l us ts).2 mid := by
  intro l
  induction l with
  | nil => intro us ts mid h; simp at h
  | cons x xs ih =>
    intro us ts mid h
    rw [reconCore_cons]
    rcases List.mem_cons.mp h with he | hm
    · subst he
      exact reconCore_preserves_settled c p now xs _ _ mid
        (processMember_settles c p now us ts mid)
    · exact ih _ _ _ hm

theorem reconCore_of_settled (c : String) (p : String → Except String UserInfo) (now : Nat) :
    ∀ (l : List String) (us : UsersT) (ts : TeamsT),
      (∀ mid ∈ l, Settled c p now us ts mid) → reconCore c p now l us ts = (us, ts) := by
  intro l
  induction l with
  | nil => intro us ts h; rfl
  | cons x xs ih =>
    intro us ts h
    rw [reconCore_cons]
    rw [processMember_of_settled (h x (by simp))]
    exact ih _ _ (fun m hm => h m (List.mem_cons_of_mem _ hm))

theorem reconCore_idem (c : String) (p : String → Except String UserInfo) (now : Nat)
    (l : List String) (us : UsersT) (ts : TeamsT) :
    reconCore c p now l (reconCore c p now l us ts).1 (reconCore c p now l us ts).2 =
      reconCore c p now l us ts := by
  rw [reconCore_of_settled c p now l _ _
    (fun mid hm => reconCore_settles_all c p now l us ts mid hm)]

theorem updateUserInfoForChannel_success (env : ReconEnv) (c : String) (st : Store) (l : List String)
    (h1 : env.readUsersOk = true) (h2 : env.readTeamsOk = true)
    (hm : env.channelMembers = .ok l) (hw1 : env.writeUsersOk = true) (hw2 : env.writeTeamsOk = true) :
    updateUserInfoForChannel env c st =
      { st with users := (reconCore c env.userInfo env.now l st.users st.teams).1,
                teams := (reconCore c env.userInfo env.now l st.users st.teams).2 } := by
  unfold updateUserInfoForChannel
  simp [h1, h2, hm, hw1, hw2]

/-- C2: running the per-channel reconciliation twice in succession with
the platform returning the same member list and profiles both times and
no interleaved mutation leaves the stored collections unchanged except
for the updated_at timestamps: Teams (and Channels) are identical after
the second run, and Users agree entry by entry once timestamps are set
aside. -/
theorem reconcile_idempotent (env₁ env₂ : ReconEnv) (channelID : String) (st : Store) (l : List String)
    (h1a : env₁.readUsersOk = true) (h1b : env₁.readTeamsOk = true)
    (h1c : env₁.writeUsersOk = true) (h1d : env₁.writeTeamsOk = true)
    (h2a : env₂.readUsersOk = true) (h2b : env₂.readTeamsOk = true)
    (h2c : env₂.writeUsersOk = true) (h2d : env₂.writeTeamsOk = true)
    (hm1 : env₁.channelMembers = .ok l) (hm2 : env₂.channelMembers = .ok l)
    (hp : env₂.userInfo = env₁.userInfo) :
    (updateUserInfoForChannel env₂ channelID (updateUserInfoForChannel env₁ channelID st)).teams =
      (updateUserInfoForChannel env₁ channelID st).teams ∧
    eraseTimes (updateUserInfoForChannel env₂ channelID (updateUserInfoForChannel env₁ channelID st)).users =
      eraseTimes (updateUserInfoForChannel env₁ channelID st).users ∧
    (updateUserInfoForChannel env₂ channelID (updateUserInfoForChannel env₁ channelID st)).channels =
      (updateUserInfoForChannel env₁ channelID st).channels := by
  rw [updateUserInfoForChannel_success env₁ channelID st l h1a h1b hm1 h1c h1d]
  rw [updateUserInfoForChannel_success env₂ channelID _ l h2a h2b hm2 h2c h2d]
  rw [hp]
  dsimp only
  have hE := reconCore_erase channelID env₁.userInfo l env₁.now st.users st.teams
  have h2E := reconCore_erase channelID env₁.userInfo l env₂.now
    (reconCore channelID env₁.userInfo env₁.now l st.users st.teams).1
    (reconCore channelID env₁.userInfo env₁.now l st.users st.teams).2
  have hidem := reconCore_idem channelID env₁.userInfo 0 l (eraseTimes st.users) st.teams
  rw [hE] at hidem
  dsimp only at hidem
  rw [h2E] at hidem
  refine ⟨?_, ?_, rfl⟩
  · have h := congrArg Prod.snd hidem
    exact h
  · have h := congrArg Prod.fst hidem
    exact h

/-- A concrete store for the idempotence witness: one team member whose
cached name is stale. -/
def reconWitnessStore : Store :=
  { teams := [("eng", { members := [{ memberID := "U1", name := "Old", channels := [] }] })],
    users := [], channels := [] }

/-- First-pass environment of the idempotence witness (time 3). -/
def reconWitnessEnvA : ReconEnv :=
  { readUsersOk := true, readTeamsOk := true, channelMembers := .ok ["U1"],
    userInfo := fun _ => .ok { name := "u.one", displayName := "One", isBot := false },
    writeUsersOk := true, writeTeamsOk := true, now := 3 }

/-- Second-pass environment of the idempotence witness: same platform
data, later time (9). -/
def reconWitnessEnvB : ReconEnv :=
  { readUsersOk := true, readTeamsOk := true, channelMembers := .ok ["U1"],
    userInfo := fun _ => .ok { name := "u.one", displayName := "One", isBot := false },
    writeUsersOk := true, writeTeamsOk := true, now := 9 }

/-- Witness for `reconcile_idempotent`: two passes over the same channel
with identical platform data at different times. -/
theorem reconcile_idempotent_witness :
    (updateUserInfoForChannel reconWitnessEnvB "C9"
        (updateUserInfoForChannel reconWitnessEnvA "C9" reconWitnessStore)).teams =
      (updateUserInfoForChannel reconWitnessEnvA "C9" reconWitnessStore).teams ∧
    eraseTimes (updateUserInfoForChannel reconWitnessEnvB "C9"
        (updateUserInfoForChannel reconWitnessEnvA "C9" reconWitnessStore)).users =
      eraseTimes (updateUserInfoForChannel reconWitnessEnvA "C9" reconWitnessStore).users ∧
    (updateUserInfoForChannel reconWitnessEnvB "C9"
        (updateUserInfoForChannel reconWitnessEnvA "C9" reconWitnessStore)).channels =
      (updateUserInfoForChannel reconWitnessEnvA "C9" reconWitnessStore).channels :=
  reconcile_idempotent reconWitnessEnvA reconWitnessEnvB "C9" reconWitnessStore ["U1"]
    rfl rfl rfl rfl rfl rfl rfl rfl rfl rfl rfl

end ConnectApp
